import Mathlib

/-!
Verification of the bidi balancer / isolator of `el_internationalisation`
(`bidi_isolation.py`), a Python port of Signal Desktop's `unicodeBidi.ts`.

Strings are modelled as `List Char`; the mutable loop of
`balance_dir_format_chars` becomes a fold over an explicit state record.
The Python local variable `suffix`, which is only ever assigned inside the
loop body, is modelled as an `Option (List Char)` field starting at `none`,
so that reading it unassigned (Python `NameError`) is observable.
-/

namespace ElI18n

/-- U+2066 LEFT-TO-RIGHT ISOLATE. -/
def LTR_ISOLATE : Char := '\u2066'

/-- U+2067 RIGHT-TO-LEFT ISOLATE. -/
def RTL_ISOLATE : Char := '\u2067'

/-- U+2068 FIRST STRONG ISOLATE. -/
def FIRST_STRONG_ISOLATE : Char := '\u2068'

/-- U+2069 POP DIRECTIONAL ISOLATE. -/
def POP_DIRECTIONAL_ISOLATE : Char := '\u2069'

/-- U+202A LEFT-TO-RIGHT EMBEDDING. -/
def LTR_EMBEDDING : Char := '\u202A'

/-- U+202B RIGHT-TO-LEFT EMBEDDING. -/
def RTL_EMBEDDING : Char := '\u202B'

/-- U+202D LEFT-TO-RIGHT OVERRIDE. -/
def LTR_OVERRIDE : Char := '\u202D'

/-- U+202E RIGHT-TO-LEFT OVERRIDE. -/
def RTL_OVERRIDE : Char := '\u202E'

/-- U+202C POP DIRECTIONAL FORMATTING. -/
def POP_DIRECTIONAL_FORMATTING : Char := '\u202C'

/-- The `formatting_chars` list of `bidi_isolation.py`: the nine directional
formatting characters, in source order. -/
def formatting_chars : List Char :=
  [LTR_ISOLATE, RTL_ISOLATE,
   FIRST_STRONG_ISOLATE, POP_DIRECTIONAL_ISOLATE,
   LTR_EMBEDDING, RTL_EMBEDDING,
   LTR_OVERRIDE, RTL_OVERRIDE,
   POP_DIRECTIONAL_FORMATTING]

/-- The `start_isolate_embedding` list: the three isolate-start characters. -/
def start_isolate_embedding : List Char :=
  [LTR_ISOLATE, RTL_ISOLATE, FIRST_STRONG_ISOLATE]

/-- The `other_start` list: the four embedding/override-start characters. -/
def other_start : List Char :=
  [LTR_EMBEDDING, RTL_EMBEDDING, LTR_OVERRIDE, RTL_OVERRIDE]

/-- The character class of `formatting_chars_pattern`.  The source builds the
regex as `rf'[{",".join(formatting_chars)}]'`, so the class literally contains
the nine characters interleaved with commas; inside `[...]` the comma is an
ordinary class member, hence the class also matches `,`. -/
def formatting_chars_class : List Char :=
  List.intersperse ',' formatting_chars

/-- `has_any_dir_format_chars`: `regex.search` over the class above succeeds
iff some character of the text is a member of the class. -/
def has_any_dir_format_chars (text : List Char) : Bool :=
  text.any (fun c => formatting_chars_class.contains c)

/-- State of the balancer loop: the accumulated `result`, the two depth
counters, and the loop-local `suffix` (`none` while still unassigned). -/
structure BalanceState where
  result : List Char
  formattingDepth : Int
  isolateDepth : Int
  closing : Option (List Char)
deriving Repr, DecidableEq

/-- The closing-suffix computation of the loop body: `suffix = ''`, then
`POP_DIRECTIONAL_FORMATTING * formattingDepth` when that depth is positive,
then `POP_DIRECTIONAL_ISOLATE * isolateDepth` when that one is. -/
def compute_suffix (formattingDepth isolateDepth : Int) : List Char :=
  (if 0 < formattingDepth then
     List.replicate formattingDepth.toNat POP_DIRECTIONAL_FORMATTING
   else [])
  ++ (if 0 < isolateDepth then
        List.replicate isolateDepth.toNat POP_DIRECTIONAL_ISOLATE
      else [])

/-- One iteration of the `for` loop of `balance_dir_format_chars`: the
`match char` dispatch followed by the in-loop recomputation of `suffix`.
Note that the `case` for a pop character decrements its counter
unconditionally and only the append of the character is guarded by
`depth >= 0`. -/
def balance_step (s : BalanceState) (c : Char) : BalanceState :=
  let s1 : BalanceState :=
    if c ∈ other_start then
      { s with formattingDepth := s.formattingDepth + 1, result := s.result ++ [c] }
    else if c = POP_DIRECTIONAL_FORMATTING then
      let d := s.formattingDepth - 1
      { s with formattingDepth := d,
               result := if 0 ≤ d then s.result ++ [c] else s.result }
    else if c ∈ start_isolate_embedding then
      { s with isolateDepth := s.isolateDepth + 1, result := s.result ++ [c] }
    else if c = POP_DIRECTIONAL_ISOLATE then
      let d := s.isolateDepth - 1
      { s with isolateDepth := d,
               result := if 0 ≤ d then s.result ++ [c] else s.result }
    else
      { s with result := s.result ++ [c] }
  { s1 with closing := some (compute_suffix s1.formattingDepth s1.isolateDepth) }

/-- The loop's initial state: empty result, both depths `0`, `suffix`
unassigned. -/
def initState : BalanceState := ⟨[], 0, 0, none⟩

/-- The full loop of `balance_dir_format_chars` over the input. -/
def balance_scan (text : List Char) : BalanceState :=
  text.foldl balance_step initState

/-- `balance_dir_format_chars`, with the possibility of failure kept
explicit: the final `return result + suffix` reads the loop-local `suffix`,
which raises `NameError` (here: `none`) if the loop body never ran. -/
def balance_dir_format_chars? (text : List Char) : Option (List Char) :=
  if has_any_dir_format_chars text then
    match (balance_scan text).closing with
    | some suf => some ((balance_scan text).result ++ suf)
    | none => none
  else
    some text

/-- `balance_dir_format_chars` as a total function (its success value;
`balance_dir_format_chars_total` below proves the `Option` is always
`some`). -/
def balance_dir_format_chars (text : List Char) : List Char :=
  (balance_dir_format_chars? text).getD []

/-- `bidi_isolate`: pick the start isolate from the direction tag ("rtl",
"ltr", anything else FSI, mirroring the `match direction` of the source) and
wrap the balanced text. -/
def bidi_isolate (text : List Char) (direction : String) : List Char :=
  let start_isolate : Char :=
    if direction = "rtl" then RTL_ISOLATE
    else if direction = "ltr" then LTR_ISOLATE
    else FIRST_STRONG_ISOLATE
  start_isolate :: (balance_dir_format_chars text ++ [POP_DIRECTIONAL_ISOLATE])

/-- The depth scan of spec section 4.3 used to state the balance invariant:
formatting depth first, isolate depth second; increment on a start character
of the matching track, decrement on its pop character. -/
def scan_step (p : Int × Int) (c : Char) : Int × Int :=
  if c ∈ other_start then (p.1 + 1, p.2)
  else if c = POP_DIRECTIONAL_FORMATTING then (p.1 - 1, p.2)
  else if c ∈ start_isolate_embedding then (p.1, p.2 + 1)
  else if c = POP_DIRECTIONAL_ISOLATE then (p.1, p.2 - 1)
  else p

/-- Run the section 4.3 depth scan over a whole text. -/
def scan_depths (text : List Char) : Int × Int :=
  text.foldl scan_step (0, 0)

/-- Deletion of the nine directional formatting characters (the character
set of `strip_bidi` in `bidi.py`, whose regex class
`[\u202A-\u202E\u2066-\u2069]` is exactly `formatting_chars`). -/
def strip_dir_format_chars (text : List Char) : List Char :=
  text.filter (fun c => decide (c ∉ formatting_chars))

/-- Modelled from the spec: the reference balancer of section 4.3's design
note, identical per-character processing but with the closing suffix
computed and appended exactly once, after the scan completes (the in-loop
`suffix` field is ignored). -/
def balance_dir_format_chars_postloop (text : List Char) : List Char :=
  if has_any_dir_format_chars text then
    (balance_scan text).result
      ++ compute_suffix (balance_scan text).formattingDepth (balance_scan text).isolateDepth
  else
    text

/-! ## Helper lemmas -/

/-- After any loop iteration the `suffix` local is assigned, and it holds the
closing suffix computed from the current depth counters. -/
theorem balance_step_closing (s : BalanceState) (c : Char) :
    (balance_step s c).closing =
      some (compute_suffix (balance_step s c).formattingDepth
        (balance_step s c).isolateDepth) := rfl

/-- Running the loop over a non-empty list of characters leaves `suffix`
assigned to the closing suffix of the final depth counters. -/
theorem foldl_closing (l : List Char) : ∀ s : BalanceState, l ≠ [] →
    (List.foldl balance_step s l).closing =
      some (compute_suffix (List.foldl balance_step s l).formattingDepth
        (List.foldl balance_step s l).isolateDepth) := by
  induction l with
  | nil => intro s h; exact absurd rfl h
  | cons c t ih =>
    intro s _
    cases t with
    | nil => exact balance_step_closing s c
    | cons d t2 =>
      rw [List.foldl_cons]
      exact ih (balance_step s c) (by simp)

/-- A text the presence detector accepts is non-empty. -/
theorem ne_nil_of_has (text : List Char)
    (h : has_any_dir_format_chars text = true) : text ≠ [] := by
  intro he
  rw [he] at h
  exact absurd h (by decide)

/-- `balance_scan` of a non-empty text ends with `suffix` assigned. -/
theorem balance_scan_closing (text : List Char) (hne : text ≠ []) :
    (balance_scan text).closing =
      some (compute_suffix (balance_scan text).formattingDepth
        (balance_scan text).isolateDepth) :=
  foldl_closing text initState hne

/-- On a text that passes the presence-detector guard, the balancer returns
the scanned result followed by the final closing suffix. -/
theorem balance_eq_of_has (text : List Char)
    (h : has_any_dir_format_chars text = true) :
    balance_dir_format_chars text =
      (balance_scan text).result
        ++ compute_suffix (balance_scan text).formattingDepth
            (balance_scan text).isolateDepth := by
  have hc := balance_scan_closing text (ne_nil_of_has text h)
  unfold balance_dir_format_chars balance_dir_format_chars?
  rw [if_pos h, hc]
  rfl

/-- On a text that fails the guard, the balancer returns it unchanged. -/
theorem balance_eq_of_not_has (text : List Char)
    (h : ¬ has_any_dir_format_chars text = true) :
    balance_dir_format_chars text = text := by
  unfold balance_dir_format_chars balance_dir_format_chars?
  rw [if_neg h]
  rfl

/-- The nine-character set is exactly the union of the four dispatch
categories of the loop. -/
theorem mem_formatting_iff (c : Char) :
    c ∈ formatting_chars ↔
      (c ∈ other_start ∨ c = POP_DIRECTIONAL_FORMATTING
        ∨ c ∈ start_isolate_embedding ∨ c = POP_DIRECTIONAL_ISOLATE) := by
  simp only [formatting_chars, other_start, start_isolate_embedding,
    List.mem_cons, List.mem_singleton, List.not_mem_nil, or_false]
  tauto

/-- `strip_dir_format_chars` drops a directional formatting character. -/
theorem strip_singleton_of_mem (c : Char) (h : c ∈ formatting_chars) :
    strip_dir_format_chars [c] = [] := by
  simp [strip_dir_format_chars, List.filter, h]

/-- `strip_dir_format_chars` keeps an ordinary character. -/
theorem strip_singleton_of_not_mem (c : Char) (h : c ∉ formatting_chars) :
    strip_dir_format_chars [c] = [c] := by
  simp [strip_dir_format_chars, List.filter, h]

/-- `strip_dir_format_chars` distributes over append. -/
theorem strip_append (l1 l2 : List Char) :
    strip_dir_format_chars (l1 ++ l2)
      = strip_dir_format_chars l1 ++ strip_dir_format_chars l2 :=
  List.filter_append l1 l2

/-- One loop iteration contributes exactly the stripped character to the
stripped result: openers tracked in the output and discarded orphan closers
are all formatting characters, and ordinary characters pass through. -/
theorem strip_balance_step (s : BalanceState) (c : Char) :
    strip_dir_format_chars (balance_step s c).result
      = strip_dir_format_chars s.result ++ strip_dir_format_chars [c] := by
  by_cases h1 : c ∈ other_start
  · have h9 : c ∈ formatting_chars := (mem_formatting_iff c).2 (Or.inl h1)
    simp [balance_step, h1, strip_append, strip_singleton_of_mem c h9]
  · by_cases h2 : c = POP_DIRECTIONAL_FORMATTING
    · have h9 : c ∈ formatting_chars := (mem_formatting_iff c).2 (Or.inr (Or.inl h2))
      have hno : POP_DIRECTIONAL_FORMATTING ∉ other_start := by decide
      by_cases hd : (1 : Int) ≤ s.formattingDepth
      · simp [balance_step, h1, h2, hd, hno, Int.sub_nonneg, strip_append,
          strip_singleton_of_mem c h9]
      · simp [balance_step, h1, h2, hd, hno, Int.sub_nonneg, strip_append,
          strip_singleton_of_mem c h9]
        decide
    · by_cases h3 : c ∈ start_isolate_embedding
      · have h9 : c ∈ formatting_chars :=
          (mem_formatting_iff c).2 (Or.inr (Or.inr (Or.inl h3)))
        simp [balance_step, h1, h2, h3, strip_append, strip_singleton_of_mem c h9]
      · by_cases h4 : c = POP_DIRECTIONAL_ISOLATE
        · have h9 : c ∈ formatting_chars :=
            (mem_formatting_iff c).2 (Or.inr (Or.inr (Or.inr h4)))
          have hno : POP_DIRECTIONAL_ISOLATE ∉ other_start := by decide
          have hnf : POP_DIRECTIONAL_ISOLATE ≠ POP_DIRECTIONAL_FORMATTING := by decide
          have hns : POP_DIRECTIONAL_ISOLATE ∉ start_isolate_embedding := by decide
          by_cases hd : (1 : Int) ≤ s.isolateDepth
          · simp [balance_step, h1, h2, h3, h4, hd, hno, hnf, hns, Int.sub_nonneg,
              strip_append, strip_singleton_of_mem c h9]
          · simp [balance_step, h1, h2, h3, h4, hd, hno, hnf, hns, Int.sub_nonneg,
              strip_append, strip_singleton_of_mem c h9]
            decide
        · have h9 : c ∉ formatting_chars := by
            intro hm
            rcases (mem_formatting_iff c).1 hm with h | h | h | h
            · exact h1 h
            · exact h2 h
            · exact h3 h
            · exact h4 h
          simp [balance_step, h1, h2, h3, h4, strip_append,
            strip_singleton_of_not_mem c h9]

/-- Stripping the scanned result of the whole loop appends the stripped
input to the stripped initial result. -/
theorem strip_foldl (l : List Char) : ∀ s : BalanceState,
    strip_dir_format_chars (List.foldl balance_step s l).result
      = strip_dir_format_chars s.result ++ strip_dir_format_chars l := by
  induction l with
  | nil => intro s; simp [strip_dir_format_chars]
  | cons c t ih =>
    intro s
    rw [List.foldl_cons, ih (balance_step s c), strip_balance_step,
      List.append_assoc, ← strip_append]
    rfl

/-- The closing suffix consists of formatting characters only, so stripping
erases it. -/
theorem strip_compute_suffix (f i : Int) :
    strip_dir_format_chars (compute_suffix f i) = [] := by
  have hrep : ∀ (n : Nat) (c : Char), c ∈ formatting_chars →
      strip_dir_format_chars (List.replicate n c) = [] := by
    intro n c hc
    induction n with
    | zero => rfl
    | succ k ih =>
      rw [List.replicate_succ, show (c :: List.replicate k c)
          = [c] ++ List.replicate k c from rfl, strip_append,
        strip_singleton_of_mem c hc, ih]
      rfl
  have hf1 : ∀ n : Nat,
      strip_dir_format_chars (List.replicate n POP_DIRECTIONAL_FORMATTING) = [] :=
    fun n => hrep n _ (by decide)
  have hi1 : ∀ n : Nat,
      strip_dir_format_chars (List.replicate n POP_DIRECTIONAL_ISOLATE) = [] :=
    fun n => hrep n _ (by decide)
  unfold compute_suffix
  rw [strip_append]
  by_cases hf : (0 : Int) < f <;> by_cases hi : (0 : Int) < i <;>
    simp [hf, hi, hf1, hi1, strip_dir_format_chars] <;> decide

/-! ## Claim theorems -/

/-- C1: the claimed balance invariant fails on the code.  On the input
`"\u202C\u202A"` (orphan PDF then LRE) the orphan PDF drives
`formattingDepth` to `-1`, the LRE only brings it back to `0`, so no closing
PDF is appended and the section 4.3 scan of the output ends with formatting
depth `1`, not `0`. -/
theorem scan_depths_balance_orphan_then_lre :
    scan_depths (balance_dir_format_chars
        [POP_DIRECTIONAL_FORMATTING, LTR_EMBEDDING]) = (1, 0)
      ∧ scan_depths (balance_dir_format_chars
          [POP_DIRECTIONAL_FORMATTING, LTR_EMBEDDING]) ≠ (0, 0) := by decide

/-- C2: the claimed idempotence fails on the code.  On `"\u202C\u202A"` one
pass returns `"\u202A"` (unbalanced, see C1), and a second pass appends the
missing PDF, so running the balancer twice differs from running it once. -/
theorem balance_not_idempotent_on_orphan_then_lre :
    balance_dir_format_chars [POP_DIRECTIONAL_FORMATTING, LTR_EMBEDDING]
        = [LTR_EMBEDDING]
      ∧ balance_dir_format_chars (balance_dir_format_chars
          [POP_DIRECTIONAL_FORMATTING, LTR_EMBEDDING])
        ≠ balance_dir_format_chars
            [POP_DIRECTIONAL_FORMATTING, LTR_EMBEDDING] := by decide

/-- C3: the claimed clamping of the depth counters at `0` fails on the code.
Processing the single orphan PDF `"\u202C"` leaves `formattingDepth` at
`-1`: the loop decrements unconditionally and only the append of the
character is guarded by `depth >= 0`. -/
theorem formatting_depth_goes_negative :
    (balance_scan [POP_DIRECTIONAL_FORMATTING]).formattingDepth = -1
      ∧ (balance_scan [POP_DIRECTIONAL_FORMATTING]).formattingDepth < 0 := by
  decide

/-- C4: the claimed equivalence of the presence detector with "contains one
of the nine directional formatting characters" fails on the code.  The regex
class is built with a comma join, so the plain comma, which is none of the
nine characters, is matched. -/
theorem has_any_matches_comma :
    has_any_dir_format_chars [','] = true
      ∧ ',' ∉ formatting_chars := by decide

/-- C5: `bidi_isolate text direction` is exactly the start isolate selected
by the direction tag (LRI for "ltr", RLI for "rtl", FSI otherwise) followed
by the balanced text followed by one PDI; in particular its last character
is PDI. -/
theorem bidi_isolate_spec (text : List Char) (direction : String) :
    bidi_isolate text direction =
        (if direction = "ltr" then LTR_ISOLATE
         else if direction = "rtl" then RTL_ISOLATE
         else FIRST_STRONG_ISOLATE)
          :: (balance_dir_format_chars text ++ [POP_DIRECTIONAL_ISOLATE])
      ∧ (bidi_isolate text direction).getLast?
          = some POP_DIRECTIONAL_ISOLATE := by
  have hchar : (if direction = "rtl" then RTL_ISOLATE
      else if direction = "ltr" then LTR_ISOLATE else FIRST_STRONG_ISOLATE)
      = (if direction = "ltr" then LTR_ISOLATE
      else if direction = "rtl" then RTL_ISOLATE else FIRST_STRONG_ISOLATE) := by
    by_cases h1 : direction = "rtl"
    · have h2 : ¬ direction = "ltr" := by rw [h1]; decide
      rw [if_pos h1, if_neg h2, if_pos h1]
    · by_cases h2 : direction = "ltr"
      · rw [if_neg h1, if_pos h2, if_pos h2]
      · rw [if_neg h1, if_neg h2, if_neg h2, if_neg h1]
  constructor
  · show (if direction = "rtl" then RTL_ISOLATE
        else if direction = "ltr" then LTR_ISOLATE else FIRST_STRONG_ISOLATE)
          :: (balance_dir_format_chars text ++ [POP_DIRECTIONAL_ISOLATE]) = _
    rw [hchar]
  · show ((if direction = "rtl" then RTL_ISOLATE
        else if direction = "ltr" then LTR_ISOLATE else FIRST_STRONG_ISOLATE)
          :: (balance_dir_format_chars text
              ++ [POP_DIRECTIONAL_ISOLATE])).getLast? = _
    rw [show ∀ (a : Char) (l : List Char),
        a :: (l ++ [POP_DIRECTIONAL_ISOLATE])
          = (a :: l) ++ POP_DIRECTIONAL_ISOLATE :: [] from fun a l => rfl,
      List.getLast?_append_cons]
    rfl

/-- C6: the claimed no-op of the balancer on the isolator's output fails on
the code: for the input `"\u202C\u202A"` the isolator emits
FSI LRE PDI, whose interior LRE is unclosed (see C1), so a second balance
pass appends a PDF and changes the string. -/
theorem balance_isolate_not_noop :
    balance_dir_format_chars (bidi_isolate
        [POP_DIRECTIONAL_FORMATTING, LTR_EMBEDDING] "auto")
      ≠ bidi_isolate [POP_DIRECTIONAL_FORMATTING, LTR_EMBEDDING] "auto" := by
  decide

/-- C7 counterexample: contrary to the spec's example, the balancer does not
delete the unclosed LRE of `"\u202Ahello"`: its output is not
`"hello\u202C"`. -/
theorem balance_lre_hello_ne_dropped :
    balance_dir_format_chars
        [LTR_EMBEDDING, 'h', 'e', 'l', 'l', 'o']
      ≠ ['h', 'e', 'l', 'l', 'o', POP_DIRECTIONAL_FORMATTING] := by decide

/-- C7 amended: `balance_dir_format_chars` applied to U+202A followed by
"hello" keeps the LRE and appends a closing PDF, returning
`"\u202Ahello\u202C"` (matching the source file's own `isolate` example). -/
theorem balance_lre_hello_eq :
    balance_dir_format_chars
        [LTR_EMBEDDING, 'h', 'e', 'l', 'l', 'o']
      = [LTR_EMBEDDING, 'h', 'e', 'l', 'l', 'o',
         POP_DIRECTIONAL_FORMATTING] := by decide

/-- C8: ordinary text passes through untouched: deleting the nine
directional formatting characters from the balancer's output yields exactly
the deletion of those characters from the input. -/
theorem strip_balance_eq_strip (text : List Char) :
    strip_dir_format_chars (balance_dir_format_chars text)
      = strip_dir_format_chars text := by
  by_cases h : has_any_dir_format_chars text = true
  · rw [balance_eq_of_has text h, strip_append, strip_compute_suffix,
      List.append_nil,
      show balance_scan text = List.foldl balance_step initState text from rfl,
      strip_foldl text initState]
    rfl
  · rw [balance_eq_of_not_has text h]

/-- C9: the implemented balancer, whose closing-suffix computation sits
inside the per-character loop, agrees on every input with the section 4.3
reference variant that computes and appends the suffix once after the scan:
the in-loop `suffix` is rebuilt from scratch each iteration, so its final
value is exactly the post-loop computation. -/
theorem balance_eq_postloop (text : List Char) :
    balance_dir_format_chars text = balance_dir_format_chars_postloop text := by
  by_cases h : has_any_dir_format_chars text = true
  · rw [balance_eq_of_has text h]
    unfold balance_dir_format_chars_postloop
    rw [if_pos h]
  · rw [balance_eq_of_not_has text h]
    unfold balance_dir_format_chars_postloop
    rw [if_neg h]

/-- C10: `balance_dir_format_chars` is total: the read of the loop-local
`suffix` at the final return never fails, because inputs rejected by the
guard return early and inputs passing the guard are non-empty, so the loop
body assigns `suffix` at least once. -/
theorem balance_dir_format_chars_total (text : List Char) :
    balance_dir_format_chars? text = some (balance_dir_format_chars text) := by
  by_cases h : has_any_dir_format_chars text = true
  · rw [balance_eq_of_has text h]
    unfold balance_dir_format_chars?
    rw [if_pos h, balance_scan_closing text (ne_nil_of_has text h)]
  · rw [balance_eq_of_not_has text h]
    unfold balance_dir_format_chars?
    rw [if_neg h]

end ElI18n
